import Mathlib

/-!
# Option builder of the gRPC tracing integration

A shallow embedding of `contrib/google.golang.org/grpc/option.go`: the `config`
record, the two service-name accessors, `defaults`, and the seven option
constructors.  An option is a Go closure `func(*config)`; here it is a function
`config → config` that returns the record after the mutation.

Modelling choices:

* `string` is `String`; the only string operation the file uses is the
  comparison with `""`.
* `float64` is its 64-bit IEEE-754 pattern.  The file only stores rates, it
  never computes with them, so a stored rate is the pattern that was passed in.
* `map[codes.Code]bool` is a finite map with extensional equality.  Indexing an
  absent key gives `false`, as in Go; the nil map of a zero-valued `config`
  reads like the empty map and is never written to by this file.
-/

namespace grpc

/-! ## Data model -/

/-- The type `codes.Code` of package `google.golang.org/grpc/codes`, an unsigned
32-bit status code; only its identity matters here. -/
abbrev Code := Nat

/-- The status code `codes.Canceled`, whose value is 1. -/
def Canceled : Code := 1

/-- A Go `float64`, as its bit pattern. -/
structure float64 where
  bits : Nat
  lt : bits < 2 ^ 64
deriving DecidableEq

/-- The constant `0.0`, also the zero value of `float64`. -/
def float64.zero : float64 := ⟨0, by decide⟩

/-- The constant `1.0`: sign 0, biased exponent 1023, mantissa 0. -/
def float64.one : float64 := ⟨0x3FF0000000000000, by decide⟩

/-- The constant `2.5`: sign 0, biased exponent 1024, mantissa 0.25. -/
def float64.twoAndHalf : float64 := ⟨0x4004000000000000, by decide⟩

/-- A Go `map[codes.Code]bool`. -/
abbrev CodeMap := Finmap (fun _ : Code => Bool)

/-- The index expression `m[c]`: the stored value, `false` for an absent key. -/
def CodeMap.index (m : CodeMap) (c : Code) : Bool := (m.lookup c).getD false

/-- The assignment `m[c] = v`. -/
def CodeMap.set (m : CodeMap) (c : Code) (v : Bool) : CodeMap := m.insert c v

/-- The builtin `len(m)`: the number of keys. -/
def CodeMap.len (m : CodeMap) : Nat := m.keys.card

/-- The struct `config`. -/
structure config where
  serviceName : String
  nonErrorCodes : CodeMap
  analyticsRate : float64
  traceStreamCalls : Bool
  traceStreamMessages : Bool
  noDebugStack : Bool
deriving DecidableEq

/-- The zero-valued record, as made by `new(config)`. -/
def config.zero : config :=
  { serviceName := ""
    nonErrorCodes := ∅
    analyticsRate := float64.zero
    traceStreamCalls := false
    traceStreamMessages := false
    noDebugStack := false }

/-! ## Service-name accessors -/

def serverServiceName (cfg : config) : String :=
  if cfg.serviceName = "" then "grpc.server" else cfg.serviceName

def clientServiceName (cfg : config) : String :=
  if cfg.serviceName = "" then "grpc.client" else cfg.serviceName

/-! ## Options -/

/-- The type `InterceptorOption = func(*config)`; `Option` is a Go alias of it. -/
abbrev InterceptorOption := config → config

def defaults (cfg : config) : config :=
  let cfg := { cfg with traceStreamCalls := true }
  let cfg := { cfg with traceStreamMessages := true }
  { cfg with nonErrorCodes := (∅ : CodeMap).set Canceled true }

def WithServiceName (name : String) : InterceptorOption := fun cfg =>
  { cfg with serviceName := name }

def WithStreamCalls (enabled : Bool) : InterceptorOption := fun cfg =>
  { cfg with traceStreamCalls := enabled }

def WithStreamMessages (enabled : Bool) : InterceptorOption := fun cfg =>
  { cfg with traceStreamMessages := enabled }

def NoDebugStack : InterceptorOption := fun cfg =>
  { cfg with noDebugStack := true }

/-- The variadic `cs ...codes.Code` is the list `cs`; the map is made empty and
then each code is set in turn on the record. -/
def NonErrorCodes (cs : List Code) : InterceptorOption := fun cfg =>
  let cfg := { cfg with nonErrorCodes := (∅ : CodeMap) }
  cs.foldl (fun cfg c => { cfg with nonErrorCodes := cfg.nonErrorCodes.set c true }) cfg

def WithAnalyticsRate (rate : float64) : InterceptorOption := fun cfg =>
  { cfg with analyticsRate := rate }

def WithAnalytics (isOn : Bool) : InterceptorOption :=
  if isOn then WithAnalyticsRate float64.one else WithAnalyticsRate float64.zero

/-! ## Sequences of options -/

/-- Modelled from the spec: the interceptor and stats-handler constructors are
not part of this file; they apply each supplied option in sequence, in the
order supplied, to the record. -/
def applyOptions (opts : List InterceptorOption) (cfg : config) : config :=
  opts.foldl (fun cfg fn => fn cfg) cfg

/-- A call of one of the seven option constructors of the file. -/
inductive OptionCall where
  | withServiceName (name : String)
  | withStreamCalls (enabled : Bool)
  | withStreamMessages (enabled : Bool)
  | noDebugStack
  | nonErrorCodes (cs : List Code)
  | withAnalytics (isOn : Bool)
  | withAnalyticsRate (rate : float64)
deriving DecidableEq

/-- The option a constructor call returns. -/
def OptionCall.build : OptionCall → InterceptorOption
  | .withServiceName name => WithServiceName name
  | .withStreamCalls enabled => WithStreamCalls enabled
  | .withStreamMessages enabled => WithStreamMessages enabled
  | .noDebugStack => NoDebugStack
  | .nonErrorCodes cs => NonErrorCodes cs
  | .withAnalytics isOn => WithAnalytics isOn
  | .withAnalyticsRate rate => WithAnalyticsRate rate

/-- The record after `defaults` and then the given constructor calls, in order,
starting from a zero-valued record. -/
def construct (calls : List OptionCall) : config :=
  applyOptions (calls.map OptionCall.build) (defaults config.zero)

/-! ## Which value a call gives to which field -/

def OptionCall.givesServiceName : OptionCall → Option String
  | .withServiceName name => some name
  | _ => none

def OptionCall.givesStreamCalls : OptionCall → Option Bool
  | .withStreamCalls enabled => some enabled
  | _ => none

def OptionCall.givesStreamMessages : OptionCall → Option Bool
  | .withStreamMessages enabled => some enabled
  | _ => none

def OptionCall.givesNoDebugStack : OptionCall → Option Bool
  | .noDebugStack => some true
  | _ => none

def OptionCall.givesNonErrorCodes : OptionCall → Option (List Code)
  | .nonErrorCodes cs => some cs
  | _ => none

def OptionCall.givesAnalyticsRate : OptionCall → Option float64
  | .withAnalytics isOn => some (if isOn then float64.one else float64.zero)
  | .withAnalyticsRate rate => some rate
  | _ => none

/-- The value given by the last call of the list that touches a field, and the
default `d` when no call touches it. -/
def lastGiven {α : Type} (gives : OptionCall → Option α) (d : α) (calls : List OptionCall) : α :=
  ((calls.filterMap gives).getLast?).getD d

/-! ## Fields of the record -/

/-- The six fields of `config`. -/
inductive Field where
  | serviceName
  | nonErrorCodes
  | analyticsRate
  | traceStreamCalls
  | traceStreamMessages
  | noDebugStack
deriving DecidableEq

/-- The field a constructor call assigns to. -/
def OptionCall.field : OptionCall → Field
  | .withServiceName _ => Field.serviceName
  | .withStreamCalls _ => Field.traceStreamCalls
  | .withStreamMessages _ => Field.traceStreamMessages
  | .noDebugStack => Field.noDebugStack
  | .nonErrorCodes _ => Field.nonErrorCodes
  | .withAnalytics _ => Field.analyticsRate
  | .withAnalyticsRate _ => Field.analyticsRate

/-- Two records hold the same value in field `f`. -/
def config.agreeOn (f : Field) (a b : config) : Bool :=
  match f with
  | .serviceName => decide (a.serviceName = b.serviceName)
  | .nonErrorCodes => decide (a.nonErrorCodes = b.nonErrorCodes)
  | .analyticsRate => decide (a.analyticsRate = b.analyticsRate)
  | .traceStreamCalls => decide (a.traceStreamCalls = b.traceStreamCalls)
  | .traceStreamMessages => decide (a.traceStreamMessages = b.traceStreamMessages)
  | .noDebugStack => decide (a.noDebugStack = b.noDebugStack)

/-! ## Helper lemmas -/

theorem applyOptions_nil (cfg : config) : applyOptions [] cfg = cfg := rfl

theorem applyOptions_cons (fn : InterceptorOption) (opts : List InterceptorOption) (cfg : config) :
    applyOptions (fn :: opts) cfg = applyOptions opts (fn cfg) := rfl

theorem applyOptions_concat (opts : List InterceptorOption) (fn : InterceptorOption)
    (cfg : config) : applyOptions (opts ++ [fn]) cfg = fn (applyOptions opts cfg) := by
  simp [applyOptions, List.foldl_append]

/-- The loop of `NonErrorCodes` touches the map field only: the result is the
input record with the map built from `cs`. -/
theorem NonErrorCodes_loop (cs : List Code) (cfg : config) :
    cs.foldl (fun cfg c => { cfg with nonErrorCodes := cfg.nonErrorCodes.set c true }) cfg
      = { cfg with nonErrorCodes :=
            cs.foldl (fun m c => CodeMap.set m c true) cfg.nonErrorCodes } := by
  induction cs generalizing cfg with
  | nil => rfl
  | cons c cs ih => simp only [List.foldl_cons]; rw [ih]

theorem NonErrorCodes_eq (cs : List Code) (cfg : config) :
    NonErrorCodes cs cfg
      = { cfg with nonErrorCodes := cs.foldl (fun m c => CodeMap.set m c true) ∅ } := by
  unfold NonErrorCodes
  simp only [NonErrorCodes_loop]

/-- Lookup in a map after setting every code of `cs` to `true`. -/
theorem lookup_foldl_set (cs : List Code) (m : CodeMap) (c : Code) :
    (cs.foldl (fun m c => CodeMap.set m c true) m).lookup c
      = if c ∈ cs then some true else m.lookup c := by
  induction cs generalizing m with
  | nil => simp
  | cons a cs ih =>
    simp only [List.foldl_cons, List.mem_cons]
    rw [ih]
    by_cases hcs : c ∈ cs
    · simp [hcs]
    · by_cases hca : c = a
      · subst hca
        simp [hcs, CodeMap.set, Finmap.lookup_insert]
      · simp [hcs, hca, CodeMap.set, Finmap.lookup_insert_of_ne]

theorem lookup_NonErrorCodes (cs : List Code) (cfg : config) (c : Code) :
    (NonErrorCodes cs cfg).nonErrorCodes.lookup c = if c ∈ cs then some true else none := by
  rw [NonErrorCodes_eq]
  simp only [lookup_foldl_set, Finmap.lookup_empty]

theorem lookup_defaults (cfg : config) (c : Code) :
    (defaults cfg).nonErrorCodes.lookup c = if c = Canceled then some true else none := by
  have h := lookup_foldl_set [Canceled] ∅ c
  simpa [defaults] using h

theorem construct_nil : construct [] = defaults config.zero := rfl

theorem construct_concat (calls : List OptionCall) (o : OptionCall) :
    construct (calls ++ [o]) = o.build (construct calls) := by
  simp [construct, applyOptions_concat]

theorem lastGiven_nil {α : Type} (gives : OptionCall → Option α) (d : α) :
    lastGiven gives d [] = d := rfl

theorem lastGiven_concat {α : Type} (gives : OptionCall → Option α) (d : α)
    (calls : List OptionCall) (o : OptionCall) :
    lastGiven gives d (calls ++ [o]) = (gives o).getD (lastGiven gives d calls) := by
  unfold lastGiven
  rw [List.filterMap_append]
  cases h : gives o with
  | none => simp [h]
  | some v => simp [h]

/-! ## The claims -/

/-- C1. Last writer wins: after `defaults` on a zero-valued record and then any
list of constructor calls applied in order, each field holds the value given by
the last call that touches it, and its default (`""`, `true`, `true`,
`{Canceled}`, `0`, `false`) when no call touches it.  The map is described by
its lookups: a code is present, with value `true`, exactly when it is among the
codes of the last `NonErrorCodes` call, or is `Canceled` when there is none. -/
theorem last_writer_wins (calls : List OptionCall) :
    (construct calls).serviceName = lastGiven OptionCall.givesServiceName "" calls ∧
    (construct calls).traceStreamCalls = lastGiven OptionCall.givesStreamCalls true calls ∧
    (construct calls).traceStreamMessages
      = lastGiven OptionCall.givesStreamMessages true calls ∧
    (∀ c, (construct calls).nonErrorCodes.lookup c
      = if c ∈ lastGiven OptionCall.givesNonErrorCodes [Canceled] calls
        then some true else none) ∧
    (construct calls).analyticsRate
      = lastGiven OptionCall.givesAnalyticsRate float64.zero calls ∧
    (construct calls).noDebugStack = lastGiven OptionCall.givesNoDebugStack false calls := by
  induction calls using List.reverseRecOn with
  | nil =>
    refine ⟨rfl, rfl, rfl, ?_, rfl, rfl⟩
    intro c
    rw [construct_nil, lookup_defaults, lastGiven_nil]
    simp
  | append_singleton calls o ih =>
    obtain ⟨h1, h2, h3, h4, h5, h6⟩ := ih
    simp only [construct_concat, lastGiven_concat]
    cases o with
    | withServiceName name =>
      exact ⟨rfl, h2, h3, h4, h5, h6⟩
    | withStreamCalls enabled =>
      exact ⟨h1, rfl, h3, h4, h5, h6⟩
    | withStreamMessages enabled =>
      exact ⟨h1, h2, rfl, h4, h5, h6⟩
    | noDebugStack =>
      exact ⟨h1, h2, h3, h4, h5, rfl⟩
    | nonErrorCodes cs =>
      refine ⟨?_, ?_, ?_, ?_, ?_, ?_⟩
      · simpa [OptionCall.build, NonErrorCodes_eq, OptionCall.givesServiceName] using h1
      · simpa [OptionCall.build, NonErrorCodes_eq, OptionCall.givesStreamCalls] using h2
      · simpa [OptionCall.build, NonErrorCodes_eq, OptionCall.givesStreamMessages] using h3
      · intro c
        simp only [OptionCall.build, OptionCall.givesNonErrorCodes, Option.getD_some]
        exact lookup_NonErrorCodes cs _ c
      · simpa [OptionCall.build, NonErrorCodes_eq, OptionCall.givesAnalyticsRate] using h5
      · simpa [OptionCall.build, NonErrorCodes_eq, OptionCall.givesNoDebugStack] using h6
    | withAnalytics isOn =>
      cases isOn
      · exact ⟨h1, h2, h3, h4, rfl, h6⟩
      · exact ⟨h1, h2, h3, h4, rfl, h6⟩
    | withAnalyticsRate rate =>
      exact ⟨h1, h2, h3, h4, rfl, h6⟩

/-- C2. Service-name resolution: a non-empty stored name is returned by both
accessors; with an empty stored name the server accessor returns
`"grpc.server"` and the client accessor `"grpc.client"`, and this is the case
of the zero-valued record and of the freshly defaulted one. -/
theorem service_name_resolution (cfg : config) :
    (cfg.serviceName ≠ "" →
      serverServiceName cfg = cfg.serviceName ∧ clientServiceName cfg = cfg.serviceName) ∧
    (cfg.serviceName = "" →
      serverServiceName cfg = "grpc.server" ∧ clientServiceName cfg = "grpc.client") ∧
    serverServiceName config.zero = "grpc.server" ∧
    clientServiceName config.zero = "grpc.client" ∧
    serverServiceName (defaults config.zero) = "grpc.server" ∧
    clientServiceName (defaults config.zero) = "grpc.client" := by
  refine ⟨?_, ?_, rfl, rfl, rfl, rfl⟩
  · intro h
    simp [serverServiceName, clientServiceName, h]
  · intro h
    simp [serverServiceName, clientServiceName, h]

theorem service_name_resolution_witness :
    (WithServiceName "billing" config.zero).serviceName ≠ "" ∧
    (serverServiceName (WithServiceName "billing" config.zero) = "billing" ∧
      clientServiceName (WithServiceName "billing" config.zero) = "billing") ∧
    (WithServiceName "" config.zero).serviceName = "" ∧
    (serverServiceName (WithServiceName "" config.zero) = "grpc.server" ∧
      clientServiceName (WithServiceName "" config.zero) = "grpc.client") :=
  ⟨by decide,
   (service_name_resolution (WithServiceName "billing" config.zero)).1 (by decide),
   rfl,
   (service_name_resolution (WithServiceName "" config.zero)).2.1 rfl⟩

/-- C3. `NonErrorCodes` replaces the set: after `NonErrorCodes(cs...)` on any
record, and on a defaulted one in particular, `nonErrorCodes[c]` is `true`
exactly when `c` occurs in `cs`; with no arguments the map is empty; and
`Canceled` stays a non-error exactly when it is listed. -/
theorem nonErrorCodes_replaces (cfg : config) (cs : List Code) (c : Code) :
    ((NonErrorCodes cs cfg).nonErrorCodes.index c = true ↔ c ∈ cs) ∧
    ((NonErrorCodes cs (defaults cfg)).nonErrorCodes.index c = true ↔ c ∈ cs) ∧
    (NonErrorCodes [] cfg).nonErrorCodes = ∅ ∧
    (NonErrorCodes [] (defaults cfg)).nonErrorCodes.index Canceled = false ∧
    ((NonErrorCodes cs (defaults cfg)).nonErrorCodes.index Canceled = true
      ↔ Canceled ∈ cs) := by
  have key : ∀ (cfg : config) (c : Code),
      (NonErrorCodes cs cfg).nonErrorCodes.index c = true ↔ c ∈ cs := by
    intro cfg c
    unfold CodeMap.index
    rw [lookup_NonErrorCodes]
    by_cases h : c ∈ cs <;> simp [h]
  exact ⟨key cfg c, key (defaults cfg) c, rfl, rfl, key (defaults cfg) Canceled⟩

/-- C4. Defaults with zero options: `defaults` on a zero-valued record, with no
further option, gives `traceStreamCalls = true`, `traceStreamMessages = true`,
`nonErrorCodes = {Canceled}` (`Canceled` maps to `true`, no other key),
`analyticsRate = 0`, `noDebugStack = false` and `serviceName = ""`. -/
theorem defaults_zero_options :
    (construct []).traceStreamCalls = true ∧
    (construct []).traceStreamMessages = true ∧
    (construct []).nonErrorCodes.lookup Canceled = some true ∧
    (construct []).nonErrorCodes.keys = {Canceled} ∧
    (construct []).nonErrorCodes.len = 1 ∧
    (construct []).analyticsRate = float64.zero ∧
    (construct []).noDebugStack = false ∧
    (construct []).serviceName = "" ∧
    construct [] = defaults config.zero := by
  refine ⟨rfl, rfl, by decide, by decide, by decide, rfl, rfl, rfl, rfl⟩

/-- C5. The analytics rate is stored verbatim: `WithAnalyticsRate(r)` leaves
`analyticsRate` equal to `r` for every `r`, `2.5` included; `WithAnalytics(true)`
leaves `1.0`, `WithAnalytics(false)` leaves `0.0`, and `WithAnalytics(on)` is the
option `WithAnalyticsRate(if on then 1.0 else 0.0)`. -/
theorem analyticsRate_verbatim (cfg : config) (r : float64) (isOn : Bool) :
    (WithAnalyticsRate r cfg).analyticsRate = r ∧
    (WithAnalyticsRate float64.twoAndHalf cfg).analyticsRate = float64.twoAndHalf ∧
    (WithAnalytics true cfg).analyticsRate = float64.one ∧
    (WithAnalytics false cfg).analyticsRate = float64.zero ∧
    WithAnalytics isOn = WithAnalyticsRate (if isOn then float64.one else float64.zero) := by
  refine ⟨rfl, rfl, rfl, rfl, ?_⟩
  cases isOn <;> rfl

/-- C6. Order sensitivity of `WithServiceName`: `a` then `b` leaves
`serviceName = b`, `b` then `a` leaves `a`, and the two resulting records
differ exactly when `a` differs from `b`. -/
theorem serviceName_order (cfg : config) (a b : String) :
    (applyOptions [WithServiceName a, WithServiceName b] cfg).serviceName = b ∧
    (applyOptions [WithServiceName b, WithServiceName a] cfg).serviceName = a ∧
    (applyOptions [WithServiceName a, WithServiceName b] cfg
        ≠ applyOptions [WithServiceName b, WithServiceName a] cfg ↔ a ≠ b) := by
  refine ⟨rfl, rfl, ?_⟩
  constructor
  · intro h hab
    subst hab
    exact h rfl
  · intro hab h
    have hs := congrArg config.serviceName h
    exact hab hs.symm

/-- C7. `NoDebugStack` is one-directional: it sets `noDebugStack` to `true` on
any record, and a record whose `noDebugStack` is `true` keeps it `true` under
every further list of calls of the seven constructors. -/
theorem noDebugStack_one_way (cfg : config) (calls : List OptionCall) :
    (NoDebugStack cfg).noDebugStack = true ∧
    (cfg.noDebugStack = true →
      (applyOptions (calls.map OptionCall.build) cfg).noDebugStack = true) := by
  refine ⟨rfl, ?_⟩
  induction calls generalizing cfg with
  | nil => exact fun h => h
  | cons o calls ih =>
    intro h
    rw [List.map_cons, applyOptions_cons]
    apply ih
    cases o with
    | withServiceName name => exact h
    | withStreamCalls enabled => exact h
    | withStreamMessages enabled => exact h
    | noDebugStack => rfl
    | nonErrorCodes cs => simpa [OptionCall.build, NonErrorCodes_eq] using h
    | withAnalytics isOn => cases isOn <;> exact h
    | withAnalyticsRate rate => exact h

theorem noDebugStack_one_way_witness :
    (NoDebugStack config.zero).noDebugStack = true ∧
    (applyOptions
      ([OptionCall.withStreamCalls false, OptionCall.nonErrorCodes [2, 2],
        OptionCall.withAnalytics true, OptionCall.withServiceName "a"].map OptionCall.build)
      (NoDebugStack config.zero)).noDebugStack = true :=
  ⟨rfl,
   (noDebugStack_one_way (NoDebugStack config.zero)
      [OptionCall.withStreamCalls false, OptionCall.nonErrorCodes [2, 2],
        OptionCall.withAnalytics true, OptionCall.withServiceName "a"]).2 rfl⟩

/-- C8. `WithServiceName` overrides unconditionally, the empty string included:
after `WithServiceName("")` on any record the stored name is `""`, the server
accessor returns `"grpc.server"` and the client accessor `"grpc.client"`, which
is what they return on a record whose name was never set. -/
theorem serviceName_override_empty (cfg : config) :
    (WithServiceName "" cfg).serviceName = "" ∧
    serverServiceName (WithServiceName "" cfg) = "grpc.server" ∧
    clientServiceName (WithServiceName "" cfg) = "grpc.client" ∧
    serverServiceName (WithServiceName "" cfg) = serverServiceName (defaults config.zero) ∧
    clientServiceName (WithServiceName "" cfg) = clientServiceName (defaults config.zero) :=
  ⟨rfl, rfl, rfl, rfl, rfl⟩

/-- C9. Each option applies one mutation: the option returned by a constructor
call leaves every field other than the one it assigns to as it was.  So
`WithServiceName` changes only `serviceName`, `WithStreamCalls` only
`traceStreamCalls`, `WithStreamMessages` only `traceStreamMessages`,
`NoDebugStack` only `noDebugStack`, `NonErrorCodes` only `nonErrorCodes`, and
`WithAnalytics` and `WithAnalyticsRate` only `analyticsRate`. -/
theorem option_frame (call : OptionCall) (cfg : config) (f : Field)
    (hf : f ≠ call.field) : config.agreeOn f (call.build cfg) cfg = true := by
  cases call with
  | withServiceName name =>
    cases f <;> first
      | exact absurd rfl hf
      | simp [config.agreeOn, OptionCall.build, WithServiceName]
  | withStreamCalls enabled =>
    cases f <;> first
      | exact absurd rfl hf
      | simp [config.agreeOn, OptionCall.build, WithStreamCalls]
  | withStreamMessages enabled =>
    cases f <;> first
      | exact absurd rfl hf
      | simp [config.agreeOn, OptionCall.build, WithStreamMessages]
  | noDebugStack =>
    cases f <;> first
      | exact absurd rfl hf
      | simp [config.agreeOn, OptionCall.build, NoDebugStack]
  | nonErrorCodes cs =>
    cases f <;> first
      | exact absurd rfl hf
      | simp [config.agreeOn, OptionCall.build, NonErrorCodes_eq]
  | withAnalytics isOn =>
    cases isOn <;> cases f <;> first
      | exact absurd rfl hf
      | simp [config.agreeOn, OptionCall.build, WithAnalytics, WithAnalyticsRate]
  | withAnalyticsRate rate =>
    cases f <;> first
      | exact absurd rfl hf
      | simp [config.agreeOn, OptionCall.build, WithAnalyticsRate]

theorem option_frame_witness :
    Field.serviceName ≠ (OptionCall.nonErrorCodes [3, 1, 3]).field ∧
    config.agreeOn Field.serviceName
      ((OptionCall.nonErrorCodes [3, 1, 3]).build (WithServiceName "a" config.zero))
      (WithServiceName "a" config.zero) = true :=
  ⟨by decide,
   option_frame (OptionCall.nonErrorCodes [3, 1, 3]) (WithServiceName "a" config.zero)
     Field.serviceName (by decide)⟩

/-- The keys of the map that `NonErrorCodes(cs...)` stores are the codes of `cs`. -/
theorem keys_NonErrorCodes (cs : List Code) (cfg : config) :
    (NonErrorCodes cs cfg).nonErrorCodes.keys = cs.toFinset := by
  ext c
  rw [Finmap.mem_keys, ← Finmap.lookup_isSome, lookup_NonErrorCodes, List.mem_toFinset]
  by_cases h : c ∈ cs <;> simp [h]

/-- C10. `NonErrorCodes` accepts duplicates and ignores order and
multiplicity: two code lists with the same members (a permutation, or repeated
entries) give the same `nonErrorCodes` map, hence the same record, and the
size of the map is the number of distinct codes of the list, at most its
length. -/
theorem nonErrorCodes_same_members (cfg : config) (cs cs' : List Code)
    (h : ∀ c, c ∈ cs ↔ c ∈ cs') :
    (NonErrorCodes cs cfg).nonErrorCodes = (NonErrorCodes cs' cfg).nonErrorCodes ∧
    NonErrorCodes cs cfg = NonErrorCodes cs' cfg ∧
    (NonErrorCodes cs cfg).nonErrorCodes.len = cs.dedup.length ∧
    (NonErrorCodes cs cfg).nonErrorCodes.len ≤ cs.length := by
  have hmap : (NonErrorCodes cs cfg).nonErrorCodes = (NonErrorCodes cs' cfg).nonErrorCodes := by
    apply Finmap.ext_lookup
    intro c
    rw [lookup_NonErrorCodes, lookup_NonErrorCodes]
    by_cases hc : c ∈ cs
    · simp [hc, (h c).1 hc]
    · have hc' : c ∉ cs' := fun h' => hc ((h c).2 h')
      simp [hc, hc']
  have hlen : (NonErrorCodes cs cfg).nonErrorCodes.len = cs.dedup.length := by
    unfold CodeMap.len
    rw [keys_NonErrorCodes, List.card_toFinset]
  refine ⟨hmap, ?_, hlen, ?_⟩
  · rw [NonErrorCodes_eq, NonErrorCodes_eq] at *
    simpa using hmap
  · rw [hlen]
    exact (List.dedup_sublist cs).length_le

theorem nonErrorCodes_same_members_witness :
    (∀ c, c ∈ [1, 2] ↔ c ∈ [2, 1, 2]) ∧
    ((NonErrorCodes [1, 2] config.zero).nonErrorCodes
        = (NonErrorCodes [2, 1, 2] config.zero).nonErrorCodes ∧
      NonErrorCodes [1, 2] config.zero = NonErrorCodes [2, 1, 2] config.zero ∧
      (NonErrorCodes [1, 2] config.zero).nonErrorCodes.len = [1, 2].dedup.length ∧
      (NonErrorCodes [1, 2] config.zero).nonErrorCodes.len ≤ [1, 2].length) :=
  ⟨by simp,
   nonErrorCodes_same_members config.zero [1, 2] [2, 1, 2] (by simp)⟩

/-- The option `WithAnalytics(on)` applied to a record: the record with the rate
`1.0` or `0.0`. -/
theorem WithAnalytics_apply (isOn : Bool) (cfg : config) :
    WithAnalytics isOn cfg
      = { cfg with analyticsRate := if isOn then float64.one else float64.zero } := by
  cases isOn <;> rfl

/-- C11. Options that touch different fields commute: for two constructor
calls that assign to different fields, applying the first option and then the
second gives the same record as applying the second and then the first. -/
theorem options_commute (o1 o2 : OptionCall) (cfg : config) (h : o1.field ≠ o2.field) :
    applyOptions [o1.build, o2.build] cfg = applyOptions [o2.build, o1.build] cfg := by
  simp only [applyOptions, List.foldl_cons, List.foldl_nil]
  cases o1 <;> cases o2 <;> first
    | exact absurd rfl h
    | simp [OptionCall.build, NonErrorCodes_eq, WithAnalytics_apply, WithServiceName,
        WithStreamCalls, WithStreamMessages, NoDebugStack, WithAnalyticsRate]

theorem options_commute_witness :
    (OptionCall.withServiceName "a").field ≠ (OptionCall.nonErrorCodes [3, 1]).field ∧
    applyOptions
        [(OptionCall.withServiceName "a").build, (OptionCall.nonErrorCodes [3, 1]).build]
        config.zero
      = applyOptions
        [(OptionCall.nonErrorCodes [3, 1]).build, (OptionCall.withServiceName "a").build]
        config.zero :=
  ⟨by decide,
   options_commute (OptionCall.withServiceName "a") (OptionCall.nonErrorCodes [3, 1])
     config.zero (by decide)⟩

/-- C12. `defaults` is a partial reset: on every record it sets
`traceStreamCalls` and `traceStreamMessages` to `true` and `nonErrorCodes` to
`{Canceled}`, and leaves `serviceName`, `analyticsRate` and `noDebugStack` as
they were.  So it is idempotent, and run after an option it discards what
`WithStreamCalls`, `WithStreamMessages` and `NonErrorCodes` had set and keeps
what `WithServiceName`, `WithAnalyticsRate` and `NoDebugStack` had set. -/
theorem defaults_partial_reset (cfg : config) (enabled : Bool) (cs : List Code)
    (name : String) (rate : float64) :
    (defaults cfg).traceStreamCalls = true ∧
    (defaults cfg).traceStreamMessages = true ∧
    (∀ c, (defaults cfg).nonErrorCodes.lookup c
      = if c = Canceled then some true else none) ∧
    (defaults cfg).nonErrorCodes.keys = {Canceled} ∧
    (defaults cfg).serviceName = cfg.serviceName ∧
    (defaults cfg).analyticsRate = cfg.analyticsRate ∧
    (defaults cfg).noDebugStack = cfg.noDebugStack ∧
    defaults (defaults cfg) = defaults cfg ∧
    defaults (WithStreamCalls enabled cfg) = defaults cfg ∧
    defaults (WithStreamMessages enabled cfg) = defaults cfg ∧
    defaults (NonErrorCodes cs cfg) = defaults cfg ∧
    (defaults (WithServiceName name cfg)).serviceName = name ∧
    (defaults (WithAnalyticsRate rate cfg)).analyticsRate = rate ∧
    (defaults (NoDebugStack cfg)).noDebugStack = true := by
  have hkeys : (defaults cfg).nonErrorCodes.keys = {Canceled} := by
    show Finmap.keys ((∅ : CodeMap).set Canceled true) = {Canceled}
    decide
  refine ⟨rfl, rfl, lookup_defaults cfg, hkeys, rfl, rfl, rfl, rfl, rfl, rfl, ?_,
    rfl, rfl, rfl⟩
  rw [NonErrorCodes_eq]
  rfl

/-- C13. Resolved service names are never empty and are role-distinct exactly
when unset: on every record each accessor returns a non-empty string, and the
two results are equal if and only if the stored `serviceName` is non-empty. -/
theorem resolved_names (cfg : config) :
    serverServiceName cfg ≠ "" ∧
    clientServiceName cfg ≠ "" ∧
    (serverServiceName cfg = clientServiceName cfg ↔ cfg.serviceName ≠ "") := by
  unfold serverServiceName clientServiceName
  by_cases h : cfg.serviceName = ""
  · simp only [h, if_true]
    exact ⟨by decide, by decide, by decide⟩
  · rw [if_neg h, if_neg h]
    exact ⟨h, h, fun _ => h, fun _ => rfl⟩

end grpc
